import Mathlib

/-!
Verification of the export-orchestration logic of `ENVIO_EMAIL.py`
(Power BI report export, download watching, batch sequencing, merge and
e-mail notification).  Time is modelled in tenths of a second: the idle
poll interval (0.4 s) is 4 units, the download poll interval (0.8 s) is
8 units and the size-stability sleep (1.2 s) is 12 units.  UI effects
(page loads, clicks, refreshes) are modelled by an environment record of
outcome oracles plus an explicit event trace.
-/

/-- The `Report` dataclass: name, URL and at most one page-selection rule. -/
structure Report where
  name : String
  url : String
  extract_page : Option Nat := none
  drop_pages : Option (List Nat) := none
  drop_last_pages : Option Nat := none
deriving DecidableEq

/-- Number of active page rules, exactly the `flags` sum computed by
`Report.validate` (a rule is active when the field `is not None`). -/
def Report.activeRules (r : Report) : Nat :=
  (if r.extract_page.isSome then 1 else 0) +
  (if r.drop_pages.isSome then 1 else 0) +
  (if r.drop_last_pages.isSome then 1 else 0)

/-- The message of the `ValueError` raised by `Report.validate`. -/
def ambiguousMsg (name : String) : String :=
  "Regras ambíguas em \x27" ++ name ++
    "\x27: use apenas uma entre extract_page | drop_pages | drop_last_pages."

/-- `Report.validate`: raises (returns `.error`) iff more than one page rule
is set. -/
def Report.validate (r : Report) : Except String Unit :=
  if 1 < r.activeRules then .error (ambiguousMsg r.name) else .ok ()

/-- Python truthiness of an optional integer field (`if rep.extract_page:`
is false both for `None` and for `0`). -/
def truthyNat : Option Nat → Bool
  | some n => n != 0
  | none => false

/-- Python truthiness of an optional list field (`None` and `[]` are falsy). -/
def truthyList : Option (List Nat) → Bool
  | some l => !l.isEmpty
  | none => false

/-- Whether `process_single_report` will run a page-rule transformation for
this report (one of the three truthiness-tested branches fires). -/
def Report.hasPageRule (r : Report) : Bool :=
  truthyNat r.extract_page || truthyNat r.drop_last_pages || truthyList r.drop_pages

/-- The path the raw download is renamed to: `{name}_{date}.pdf` in the run
directory. -/
def destinoPath (runDir dataHoje : String) (r : Report) : String :=
  runDir ++ "/" ++ r.name ++ "_" ++ dataHoje ++ ".pdf"

/-- The final per-report artifact path returned by `process_single_report`,
following the `if rep.extract_page / elif rep.drop_last_pages /
elif rep.drop_pages / else` chain. -/
def finalPath (runDir dataHoje : String) (r : Report) : String :=
  if truthyNat r.extract_page then
    runDir ++ "/" ++ r.name ++ "_" ++ dataHoje ++ "_pg" ++
      toString (r.extract_page.getD 0) ++ ".pdf"
  else if truthyNat r.drop_last_pages then
    runDir ++ "/" ++ r.name ++ "_" ++ dataHoje ++ "_sem_ult.pdf"
  else if truthyList r.drop_pages then
    runDir ++ "/" ++ r.name ++ "_" ++ dataHoje ++ "_sem_paginas.pdf"
  else destinoPath runDir dataHoje r

/-- `strip_last_pages`: the output document holds pages
`0 .. max(0, total - n_last) - 1` of the source (a PDF is a page list). -/
def strip_last_pages {α : Type} (src : List α) (n_last : Nat) : List α :=
  (List.range (max 0 (src.length - n_last))).filterMap (fun i => src.get? i)

/-- `merge_pdfs`: a `PdfMerger` is an accumulator that appends each input
document (read from its path) in the order received. -/
def merge_pdfs (readPdf : String → List Nat) (paths : List String) : List Nat :=
  paths.foldl (fun acc p => acc ++ readPdf p) []

/-- Outcome of `wait_report_idle`: either success or a raised
`TimeoutError`, both tagged with the wall-clock time (tenths of a second
since the call) at which they happen. -/
inductive IdleOutcome where
  | success (t : Nat)
  | timeoutErr (t : Nat)
deriving DecidableEq

/-- The polling loop of `wait_report_idle`: polls `busy` every 4 units
(0.4 s); `ss` is `stable_start` (`none` = unset).  `fuel` bounds the
recursion and is chosen large enough that it never runs out before the
deadline. -/
def waitIdleAux (busy : Nat → Bool) (endT stable_required : Nat) :
    Nat → Option Nat → Nat → IdleOutcome
  | t, _, 0 => .timeoutErr t
  | t, ss, fuel+1 =>
    if t < endT then
      if busy t then waitIdleAux busy endT stable_required (t+4) none fuel
      else
        let s0 := ss.getD t
        if stable_required ≤ t - s0 then .success t
        else waitIdleAux busy endT stable_required (t+4) (some s0) fuel
    else .timeoutErr t

/-- `wait_report_idle(driver, timeout, stable_required)`: the busy signal is
sampled at times `0, 4, 8, …`; `timeout` and `stable_required` are in the
same tenth-of-a-second unit. -/
def wait_report_idle (busy : Nat → Bool) (timeout stable_required : Nat) : IdleOutcome :=
  waitIdleAux busy timeout stable_required 0 none (timeout + 1)

/-- The variant tag returned by `open_export_menu_unified`. -/
inductive NavVariant where
  | direct
  | overflow
  | filemenu
deriving DecidableEq

/-- Log record for strategy 1 failing (direct export button). -/
def navFailMsg1 (e : String) : String :=
  "\x27Exportar\x27 direto não disponível: " ++ e

/-- Log record for strategy 2 failing (overflow menu). -/
def navFailMsg2 (e : String) : String := "Overflow indisponível: " ++ e

/-- Log record for strategy 3 failing (file menu). -/
def navFailMsg3 (e : String) : String :=
  "Arquivo→Exportar indisponível: " ++ e

/-- The message of the `RuntimeError` raised when all strategies fail. -/
def noViablePathMsg : String := "Não consegui abrir o menu de exportação."

/-- `open_export_menu_unified`: tries the direct button, then the overflow
menu, then the file menu; each strategy is an abstract fallible action whose
outcome is a parameter.  Returns the result (variant tag or the final
`RuntimeError`) together with the list of logged failure records. -/
def open_export_menu_unified (s1 s2 s3 : Except String Unit) :
    Except String NavVariant × List String :=
  match s1 with
  | .ok _ => (.ok .direct, [])
  | .error e1 =>
    match s2 with
    | .ok _ => (.ok .overflow, [navFailMsg1 e1])
    | .error e2 =>
      match s3 with
      | .ok _ => (.ok .filemenu, [navFailMsg1 e1, navFailMsg2 e2])
      | .error e3 =>
        (.error noViablePathMsg, [navFailMsg1 e1, navFailMsg2 e2, navFailMsg3 e3])

/-- One directory entry, as observed by `os.listdir` / `os.path.getmtime` /
`os.path.getsize`. -/
structure FsEntry where
  name : String
  mtime : Nat
  size : Nat
deriving DecidableEq

/-- Python `str.lower`, computed characterwise over the underlying
character list. -/
def strToLower (s : String) : String := ⟨s.data.map Char.toLower⟩

/-- Python `str.endswith`, computed over the underlying character lists. -/
def strEndsWith (s suffix : String) : Bool := List.isSuffixOf suffix.data s.data

/-- Python `str.startswith`, computed over the underlying character lists. -/
def strStartsWith (s pre : String) : Bool := List.isPrefixOf pre.data s.data

/-- `_is_temp_file`: lowercased name ends with a known partial/temp download
extension. -/
def is_temp_file (fn : String) : Bool :=
  let f := strToLower fn
  strEndsWith f ".crdownload" || strEndsWith f ".tmp" || strEndsWith f ".part" ||
    strEndsWith f ".partial"

/-- Whether a name is a completed artifact name (`.pdf`, lowercased). -/
def isPdfName (fn : String) : Bool := strEndsWith (strToLower fn) ".pdf"

/-- Start-detection test of `wait_for_pdf_download`: any of the final or
partial/temp extensions. -/
def isDownloadName (fn : String) : Bool :=
  let f := strToLower fn
  strEndsWith f ".pdf" || strEndsWith f ".crdownload" || strEndsWith f ".tmp" ||
    strEndsWith f ".part" || strEndsWith f ".partial"

/-- `set(os.listdir(dir)) - existing_files` at time `t`: names listed now
that were not in the pre-export snapshot. -/
def newFiles (fs : Nat → List FsEntry) (existing : List String) (t : Nat) :
    List String :=
  ((fs t).map FsEntry.name).filter (fun n => !(existing.contains n))

/-- `os.path.getmtime` of name `n` at time `t` (0 when absent). -/
def mtimeAt (fs : Nat → List FsEntry) (t : Nat) (n : String) : Nat :=
  (((fs t).find? (fun e => e.name == n)).map FsEntry.mtime).getD 0

/-- `os.path.getsize` of name `n` at time `t` (0 when absent). -/
def sizeAt (fs : Nat → List FsEntry) (t : Nat) (n : String) : Nat :=
  (((fs t).find? (fun e => e.name == n)).map FsEntry.size).getD 0

/-- Python `max(xs, key=m)` over `x :: xs`: keeps the earliest element on
ties, replaces only on a strictly larger key. -/
def maxByKey (m : String → Nat) (x : String) (xs : List String) : String :=
  xs.foldl (fun best n => if m best < m n then n else best) x

/-- The polling loop of `wait_for_pdf_download`: poll interval 8 units
(0.8 s); a failed stability check costs an extra 12 units (the 1.2 s
sleep).  `.ok (path, t)` returns the artifact path found at poll time `t`;
`.error t` is a `TimeoutError` raised at time `t`. -/
def waitDlAux (fs : Nat → List FsEntry) (existing : List String) (deadline : Nat) :
    Nat → Bool → Nat → Except Nat (String × Nat)
  | t, _, 0 => .error t
  | t, started, fuel+1 =>
    if t < deadline then
      let newN := newFiles fs existing t
      let started2 := started || newN.any isDownloadName
      if started2 then
        match newN.filter isPdfName with
        | [] => waitDlAux fs existing deadline (t+8) started2 fuel
        | p :: ps =>
          if (newN.filter is_temp_file).isEmpty then
            let latest := maxByKey (mtimeAt fs t) p ps
            let s1 := sizeAt fs t latest
            let s2 := sizeAt fs (t+12) latest
            if s1 = s2 ∧ 0 < s2 then .ok (latest, t)
            else waitDlAux fs existing deadline (t+20) started2 fuel
          else waitDlAux fs existing deadline (t+8) started2 fuel
      else waitDlAux fs existing deadline (t+8) started2 fuel
    else .error t

/-- `wait_for_pdf_download(download_dir, existing_files, rep_name, timeout)`
over a directory history `fs`; polls start at time 0. -/
def wait_for_pdf_download (fs : Nat → List FsEntry) (existing : List String)
    (timeout : Nat) : Except Nat (String × Nat) :=
  waitDlAux fs existing timeout 0 false (timeout + 1)

/-- The tunables consumed by the immediate/fallback retry protocol
(`FORCE_EXPORT_IMMEDIATE`, `IMMEDIATE_TRIES`). -/
structure ExportConfig where
  force_immediate : Bool
  immediate_tries : Nat

/-- Outcome oracles for the UI/filesystem effects of one report:
whether the page load settles, whether the k-th immediate export attempt
succeeds, whether the fallback idle wait reaches stability, whether the
fallback navigation+confirm attempt succeeds, whether the download
completes in time, and whether the page-rule transformation succeeds. -/
structure UiEnv where
  pageLoadOk : Bool
  immediateResult : Nat → Bool
  idleOk : Bool
  fallbackExportOk : Bool
  downloadOk : Bool
  ruleOk : Bool

/-- Observable steps of `process_single_report`, in execution order. -/
inductive Ev where
  | loadUrl (url : String)
  | immediateAttempt (k : Nat)
  | refresh
  | idleWait
  | fallbackAttempt
  | downloadWait
  | applyRule
deriving DecidableEq

/-- The `for attempt in range(1, IMMEDIATE_TRIES + 1)` loop: attempt `k`
succeeds and breaks, or fails, triggers `driver.refresh()` and retries.
Returns whether `immediate_ok` ended true, with the event trace. -/
def runImmediate (res : Nat → Bool) : Nat → Nat → Bool × List Ev
  | _, 0 => (false, [])
  | k, n+1 =>
    if res k then (true, [Ev.immediateAttempt k])
    else
      let r := runImmediate res (k+1) n
      (r.1, Ev.immediateAttempt k :: Ev.refresh :: r.2)

/-- The tail of `process_single_report` after the export was triggered:
wait for the download, then apply the page rule when one is configured.
`.ok none` is the caught-exception path (report failed). -/
def afterExport (env : UiEnv) (runDir dataHoje : String) (rep : Report)
    (evs : List Ev) : Except String (Option String) × List Ev :=
  if env.downloadOk = false then (.ok none, evs ++ [Ev.downloadWait])
  else if rep.hasPageRule then
    if env.ruleOk then
      (.ok (some (finalPath runDir dataHoje rep)), evs ++ [Ev.downloadWait, Ev.applyRule])
    else (.ok none, evs ++ [Ev.downloadWait, Ev.applyRule])
  else (.ok (some (finalPath runDir dataHoje rep)), evs ++ [Ev.downloadWait])

/-- `process_single_report`: `rep.validate()` runs before the `try` block,
so its `ValueError` propagates as `.error`.  Inside the `try`, every
failure is caught and yields `.ok none`; success yields
`.ok (some final_path)`.  The second component is the event trace. -/
def process_single_report (cfg : ExportConfig) (env : UiEnv)
    (runDir dataHoje : String) (rep : Report) :
    Except String (Option String) × List Ev :=
  match rep.validate with
  | .error e => (.error e, [])
  | .ok _ =>
    if env.pageLoadOk = false then (.ok none, [Ev.loadUrl rep.url])
    else
      let imm := if cfg.force_immediate then
          runImmediate env.immediateResult 1 cfg.immediate_tries
        else (false, [])
      let evs := Ev.loadUrl rep.url :: imm.2
      if imm.1 then afterExport env runDir dataHoje rep evs
      else if env.idleOk = false then (.ok none, evs ++ [Ev.idleWait])
      else if env.fallbackExportOk = false then
        (.ok none, evs ++ [Ev.idleWait, Ev.fallbackAttempt])
      else afterExport env runDir dataHoje rep (evs ++ [Ev.idleWait, Ev.fallbackAttempt])

/-- The `for rep in reports` loop of `run_all_reports`, indexed so that
report `i` runs in environment `envs i`.  An uncaught exception from
`process_single_report` (only `validate` can raise one) aborts the whole
loop as `.error`. -/
def runAllAux (cfg : ExportConfig) (envs : Nat → UiEnv) (runDir dataHoje : String) :
    Nat → List Report → Except String (List String × List String)
  | _, [] => .ok ([], [])
  | i, r :: rs =>
    match (process_single_report cfg (envs i) runDir dataHoje r).1 with
    | .error e => .error e
    | .ok res =>
      match runAllAux cfg envs runDir dataHoje (i+1) rs with
      | .error e => .error e
      | .ok (oks, fails) =>
        match res with
        | some p => .ok (p :: oks, fails)
        | none => .ok (oks, r.name :: fails)

/-- `run_all_reports(driver, reports)` returning `(ok_paths, falhas)` when no
uncaught exception escapes. -/
def run_all_reports (cfg : ExportConfig) (envs : Nat → UiEnv)
    (runDir dataHoje : String) (reps : List Report) :
    Except String (List String × List String) :=
  runAllAux cfg envs runDir dataHoje 0 reps

/-- The per-report outcome as recorded by the batch loop: the final path on
success, `none` on a caught failure (or on an uncaught error, where the
loop aborts instead of recording anything). -/
def reportOutcome (cfg : ExportConfig) (envs : Nat → UiEnv)
    (runDir dataHoje : String) (i : Nat) (r : Report) : Option String :=
  match (process_single_report cfg (envs i) runDir dataHoje r).1 with
  | .ok o => o
  | .error _ => none

/-- `os.path.basename`: the characters after the last path separator. -/
def basename (p : String) : String :=
  ⟨p.data.foldl (fun acc c =>
    if c == '/' || c == Char.ofNat 92 then [] else acc ++ [c]) []⟩

/-- `build_email_html(ok_reports, failed_names)`: the notification body,
with the `Falhas` section present exactly when there are failures. -/
def build_email_html (dataHoje : String) (ok_reports : List Report)
    (failed_names : List String) : String :=
  let lis_ok := String.join (ok_reports.map (fun r =>
    "<li>" ++ r.name ++ " — <a href=\"" ++ r.url ++ "\">abrir</a></li>"))
  let failed_html :=
    if failed_names.isEmpty then ""
    else "<p><b>Falhas:</b></p><ul>" ++
      String.join (failed_names.map (fun n => "<li>" ++ n ++ "</li>")) ++ "</ul>"
  "\n    <p>Bom dia,</p>\n    <p>Segue o PDF diário consolidado (data " ++
    dataHoje ++ ") em anexo.</p>\n    <p>Relatórios processados:</p>\n    <ul>" ++
    lis_ok ++ "</ul>\n    " ++ failed_html ++
    "\n    <p>Atenciosamente,<br>Sua Equipe</p>\n    "

/-- Downstream steps of `main` after the batch result is known. -/
inductive MainEv where
  | mergeEv (paths : List String) (output : String)
  | sendEv (recipients : List String) (subject : String) (body : String)
deriving DecidableEq

/-- The tail of `main` after `run_all_reports`: abort on zero successes,
merge, abort the send on an empty recipient list, otherwise build the HTML
body and send. -/
def main_after_batch (dataHoje pdfFinalPath : String) (reports : List Report)
    (ok_paths falhas recipients : List String) : List MainEv :=
  if ok_paths.isEmpty then []
  else
    let m := MainEv.mergeEv ok_paths pdfFinalPath
    if recipients.isEmpty then [m]
    else
      let ok_reports := reports.filter (fun r =>
        ok_paths.any (fun p => strStartsWith (basename p) (r.name ++ "_")))
      [m, MainEv.sendEv recipients ("Indicadores diários (" ++ dataHoje ++ ")")
        (build_email_html dataHoje ok_reports falhas)]

/-- `needle` occurs contiguously inside `hay`. -/
def substrIn (needle hay : List Char) : Prop :=
  ∃ pre post, hay = pre ++ needle ++ post

/-- The default tunables of the script (`FORCE_EXPORT_IMMEDIATE=true`,
`IMMEDIATE_TRIES=3`). -/
def defaultConfig : ExportConfig := ⟨true, 3⟩

/-- An environment where every effect succeeds. -/
def envAllOk : UiEnv := ⟨true, fun _ => true, true, true, true, true⟩

/-- An environment where the page loads but every later effect fails. -/
def envAllFail : UiEnv := ⟨true, fun _ => false, false, false, false, false⟩

/-- A report with two active page rules (ambiguous configuration). -/
def badRep : Report := ⟨"X", "u", some 1, some [2], none⟩

/-- A plain report with no page rule. -/
def goodRep : Report := ⟨"A", "u", none, none, none⟩

/-- Recognizer for immediate-attempt events. -/
def isAttEv : Ev → Bool
  | .immediateAttempt _ => true
  | _ => false

/-- Recognizer for immediate-attempt events whose attempt failed under the
outcome oracle `res`. -/
def isFailedAttEv (res : Nat → Bool) : Ev → Bool
  | .immediateAttempt k => !res k
  | _ => false

/-- Recognizer for surface-reload (`driver.refresh()`) events. -/
def isRefreshEv : Ev → Bool
  | .refresh => true
  | _ => false

/-- Recognizer for fallback navigation+confirm attempts. -/
def isFallbackEv : Ev → Bool
  | .fallbackAttempt => true
  | _ => false

/-- A directory history where `r.pdf` (mtime 1, 100 bytes) appears at time 8
and stays stable. -/
def dlFs0 : Nat → List FsEntry :=
  fun t => if t < 8 then [] else [⟨"r.pdf", 1, 100⟩]

/-- Claim C10: for every source PDF and every `n_last` at least the page
count, `strip_last_pages` writes a document with zero pages instead of
raising an error. -/
theorem strip_last_pages_truncates {α : Type} (src : List α) (n_last : Nat)
    (h : src.length ≤ n_last) : strip_last_pages src n_last = [] := by
  unfold strip_last_pages
  have h0 : src.length - n_last = 0 := Nat.sub_eq_zero_of_le h
  simp [h0]

theorem strip_last_pages_truncates_witness :
    strip_last_pages [1, 2, 3] 5 = ([] : List Nat) :=
  strip_last_pages_truncates [1, 2, 3] 5 (by decide)

/-- Claim C7: a report with two or more active page rules is rejected by
validation with the configuration error, and no event at all — in
particular no URL load — happens for that report. -/
theorem ambiguous_rules_rejected_before_ui (cfg : ExportConfig) (env : UiEnv)
    (runDir dataHoje : String) (rep : Report) (h : 2 ≤ rep.activeRules) :
    (process_single_report cfg env runDir dataHoje rep).1 =
      .error (ambiguousMsg rep.name) ∧
    (process_single_report cfg env runDir dataHoje rep).2 = [] ∧
    Ev.loadUrl rep.url ∉ (process_single_report cfg env runDir dataHoje rep).2 := by
  have h1 : 1 < rep.activeRules := h
  unfold process_single_report Report.validate
  simp [h1]

theorem ambiguous_rules_rejected_before_ui_witness :
    (process_single_report defaultConfig envAllOk "d" "t" badRep).1 =
      .error (ambiguousMsg "X") ∧
    (process_single_report defaultConfig envAllOk "d" "t" badRep).2 = [] ∧
    Ev.loadUrl "u" ∉ (process_single_report defaultConfig envAllOk "d" "t" badRep).2 :=
  ambiguous_rules_rejected_before_ui defaultConfig envAllOk "d" "t" badRep (by decide)

/-- Claim C6: the three navigation strategies are tried in fixed priority
order; a strategy failure is logged and falls through without propagating;
the returned variant tag names exactly the succeeding strategy; the
no-viable-path error is raised iff all three strategies failed. -/
theorem open_export_menu_unified_spec (s1 s2 s3 : Except String Unit) :
    (s1 = .ok () → open_export_menu_unified s1 s2 s3 = (.ok .direct, [])) ∧
    (∀ e1, s1 = .error e1 → s2 = .ok () →
      open_export_menu_unified s1 s2 s3 = (.ok .overflow, [navFailMsg1 e1])) ∧
    (∀ e1 e2, s1 = .error e1 → s2 = .error e2 → s3 = .ok () →
      open_export_menu_unified s1 s2 s3 =
        (.ok .filemenu, [navFailMsg1 e1, navFailMsg2 e2])) ∧
    (∀ e1 e2 e3, s1 = .error e1 → s2 = .error e2 → s3 = .error e3 →
      open_export_menu_unified s1 s2 s3 =
        (.error noViablePathMsg, [navFailMsg1 e1, navFailMsg2 e2, navFailMsg3 e3])) ∧
    ((∃ e, (open_export_menu_unified s1 s2 s3).1 = .error e) ↔
      (∃ e1, s1 = .error e1) ∧ (∃ e2, s2 = .error e2) ∧ (∃ e3, s3 = .error e3)) := by
  rcases s1 with e1 | u1 <;> rcases s2 with e2 | u2 <;> rcases s3 with e3 | u3 <;>
    simp [open_export_menu_unified]

theorem open_export_menu_unified_spec_witness :
    open_export_menu_unified (.error "a") (.error "b") (.ok ()) =
      (.ok .filemenu, [navFailMsg1 "a", navFailMsg2 "b"]) :=
  (open_export_menu_unified_spec (.error "a") (.error "b") (.ok ())).2.2.1 "a" "b"
    rfl rfl rfl

theorem waitIdleAux_phase3 (T S endT : Nat) (fuel : Nat) :
    ∀ t, T ≤ t → t ≤ T + S + 3 → T + S + 4 ≤ endT → T + S + 4 - t ≤ 4 * fuel →
      ∃ u, waitIdleAux (fun v => decide (v < T)) endT S t (some T) fuel = .success u ∧
        T + S ≤ u ∧ u ≤ T + S + 3 := by
  induction fuel with
  | zero => intro t h1 h2 h3 h4; omega
  | succ fuel ih =>
    intro t hTt hub hend hfuel
    have hlt : t < endT := by omega
    have hbusy : decide (t < T) = false := by simp; omega
    by_cases hS : S ≤ t - T
    · refine ⟨t, ?_, by omega, hub⟩
      simp [waitIdleAux, hlt, hbusy, hS]
    · obtain ⟨u, hu, h1, h2⟩ := ih (t+4) (by omega) (by omega) hend (by omega)
      refine ⟨u, ?_, h1, h2⟩
      simp only [waitIdleAux, if_pos hlt, hbusy, Bool.false_eq_true, if_false,
        Option.getD_some, if_neg hS]
      exact hu

theorem waitIdleAux_phase1 (T S endT : Nat) (fuel : Nat) :
    ∀ t, t ≤ T → (T - t) % 4 = 0 → T + S + 4 ≤ endT → T + S + 4 - t ≤ 4 * fuel →
      ∃ u, waitIdleAux (fun v => decide (v < T)) endT S t none fuel = .success u ∧
        T + S ≤ u ∧ u ≤ T + S + 3 := by
  induction fuel with
  | zero => intro t h1 h2 h3 h4; omega
  | succ fuel ih =>
    intro t htT hmod hend hfuel
    have hlt : t < endT := by omega
    by_cases hb : t < T
    · have hbusy : decide (t < T) = true := by simp [hb]
      obtain ⟨u, hu, h1, h2⟩ := ih (t+4) (by omega) (by omega) hend (by omega)
      refine ⟨u, ?_, h1, h2⟩
      simp only [waitIdleAux, if_pos hlt, hbusy, if_true]
      exact hu
    · have ht : t = T := by omega
      subst ht
      have hbusy : decide (t < t) = false := by simp
      by_cases hS : S = 0
      · refine ⟨t, ?_, by omega, by omega⟩
        simp [waitIdleAux, hlt, hbusy, hS]
      · obtain ⟨u, hu, h1, h2⟩ :=
          waitIdleAux_phase3 t S endT fuel (t+4) (by omega) (by omega) hend (by omega)
        refine ⟨u, ?_, h1, h2⟩
        simp only [waitIdleAux, if_pos hlt, hbusy, Bool.false_eq_true, if_false,
          Option.getD_none, Nat.sub_self]
        rw [if_neg (by omega)]
        exact hu

theorem waitIdleAux_sound (busy : Nat → Bool) (endT S : Nat) (fuel : Nat) :
    ∀ t ss, (∀ a, ss = some a → a ≤ t ∧ (t - a) % 4 = 0 ∧
        ∀ v, a ≤ v → v < t → (v - a) % 4 = 0 → busy v = false) →
      ∀ u, waitIdleAux busy endT S t ss fuel = .success u →
      ∃ a, a ≤ u ∧ S ≤ u - a ∧
        ∀ v, a ≤ v → v ≤ u → (v - a) % 4 = 0 → busy v = false := by
  induction fuel with
  | zero => intro t ss hss u h; simp [waitIdleAux] at h
  | succ fuel ih =>
    intro t ss hss u h
    simp only [waitIdleAux] at h
    by_cases hlt : t < endT
    · rw [if_pos hlt] at h
      by_cases hb : busy t = true
      · rw [if_pos hb] at h
        exact ih (t+4) none (by simp) u h
      · rw [if_neg hb] at h
        have hbf : busy t = false := by
          cases hbusy : busy t
          · rfl
          · exact absurd hbusy hb
        cases hssv : ss with
        | none =>
          subst hssv
          simp only [Option.getD_none] at h
          by_cases hS : S ≤ t - t
          · rw [if_pos hS] at h
            have hut : u = t := by
              cases h
              rfl
            subst hut
            refine ⟨u, Nat.le_refl u, hS, ?_⟩
            intro v h1 h2 _
            have : v = u := Nat.le_antisymm h2 h1
            subst this
            exact hbf
          · rw [if_neg hS] at h
            refine ih (t+4) (some t) ?_ u h
            intro a ha
            cases ha
            refine ⟨by omega, by omega, ?_⟩
            intro v h1 h2 h3
            have : v = t := by omega
            subst this
            exact hbf
        | some a =>
          subst hssv
          obtain ⟨ha1, ha2, ha3⟩ := hss a rfl
          simp only [Option.getD_some] at h
          by_cases hS : S ≤ t - a
          · rw [if_pos hS] at h
            have hut : u = t := by
              cases h
              rfl
            subst hut
            refine ⟨a, by omega, hS, ?_⟩
            intro v h1 h2 h3
            rcases Nat.lt_or_ge v u with hv | hv
            · exact ha3 v h1 hv h3
            · have : v = u := by omega
              subst this
              exact hbf
          · rw [if_neg hS] at h
            refine ih (t+4) (some a) ?_ u h
            intro b hb2
            cases hb2
            refine ⟨by omega, by omega, ?_⟩
            intro v h1 h2 h3
            rcases Nat.lt_or_ge v t with hv | hv
            · exact ha3 v h1 hv h3
            · have : v = t := by omega
              subst this
              exact hbf
    · rw [if_neg hlt] at h
      simp at h

theorem waitIdleAux_busy_timeout (busy : Nat → Bool) (endT S : Nat) (fuel : Nat) :
    ∀ t ss, (∀ v, v < endT → busy v = true) → endT ≤ t + 4 * fuel →
      ∃ r, waitIdleAux busy endT S t ss fuel = .timeoutErr r ∧ endT ≤ r := by
  induction fuel with
  | zero => intro t ss hb hf; exact ⟨t, by simp [waitIdleAux], by omega⟩
  | succ fuel ih =>
    intro t ss hb hf
    by_cases hlt : t < endT
    · have hbt : busy t = true := hb t hlt
      obtain ⟨r, hr, h2⟩ := ih (t+4) none hb (by omega)
      refine ⟨r, ?_, h2⟩
      simp only [waitIdleAux, if_pos hlt, hbt, if_true]
      exact hr
    · exact ⟨t, by simp [waitIdleAux, hlt], by omega⟩

/-- Claim C4: `wait_report_idle` succeeds only after the busy predicate has
been false at every poll of a contiguous window of length at least
`stable_required` (a busy poll resets the window); and for a signal that
turns idle at a poll time `T` and never turns busy again, success comes no
earlier than `T + stable_required` and no later than one poll interval
after that. -/
theorem wait_report_idle_debounce :
    (∀ (busy : Nat → Bool) (timeout S u : Nat),
      wait_report_idle busy timeout S = .success u →
      ∃ a, a ≤ u ∧ S ≤ u - a ∧
        ∀ v, a ≤ v → v ≤ u → (v - a) % 4 = 0 → busy v = false) ∧
    (∀ T S timeout : Nat, T % 4 = 0 → T + S + 4 ≤ timeout →
      ∃ u, wait_report_idle (fun v => decide (v < T)) timeout S = .success u ∧
        T + S ≤ u ∧ u ≤ T + S + 4) := by
  constructor
  · intro busy timeout S u h
    exact waitIdleAux_sound busy timeout S (timeout+1) 0 none (by simp) u h
  · intro T S timeout hT hto
    obtain ⟨u, hu, h1, h2⟩ :=
      waitIdleAux_phase1 T S timeout (timeout+1) 0 (by omega) (by omega) hto (by omega)
    exact ⟨u, hu, h1, by omega⟩

theorem wait_report_idle_debounce_witness :
    (∃ a, a ≤ 0 ∧ 0 ≤ 0 - a ∧
      ∀ v, a ≤ v → v ≤ 0 → (v - a) % 4 = 0 → (fun _ : Nat => false) v = false) ∧
    (∃ u, wait_report_idle (fun v => decide (v < 4)) 100 8 = .success u ∧
      12 ≤ u ∧ u ≤ 16) :=
  ⟨wait_report_idle_debounce.1 (fun _ => false) 20 0 0 (by decide),
   wait_report_idle_debounce.2 4 8 100 (by decide) (by decide)⟩

/-- Claim C5: for a signal that stays busy throughout the window,
`wait_report_idle` raises its timeout error at a time no earlier than
`timeout`, and never returns success. -/
theorem wait_report_idle_always_busy (busy : Nat → Bool) (timeout S : Nat)
    (h : ∀ v, v < timeout → busy v = true) :
    ∃ r, wait_report_idle busy timeout S = .timeoutErr r ∧ timeout ≤ r :=
  waitIdleAux_busy_timeout busy timeout S (timeout+1) 0 none h (by omega)

theorem wait_report_idle_always_busy_witness :
    ∃ r, wait_report_idle (fun _ => true) 8 5 = .timeoutErr r ∧ 8 ≤ r :=
  wait_report_idle_always_busy (fun _ => true) 8 5 (fun _ _ => rfl)

theorem maxByKey_mem (m : String → Nat) (xs : List String) :
    ∀ x, maxByKey m x xs ∈ x :: xs := by
  induction xs with
  | nil => intro x; simp [maxByKey]
  | cons y ys ih =>
    intro x
    simp only [maxByKey, List.foldl_cons]
    by_cases hc : m x < m y
    · rw [if_pos hc]
      have := ih y
      simp only [maxByKey] at this
      simp only [List.mem_cons] at this ⊢
      tauto
    · rw [if_neg hc]
      have := ih x
      simp only [maxByKey] at this
      simp only [List.mem_cons] at this ⊢
      tauto

theorem maxByKey_ge (m : String → Nat) (xs : List String) :
    ∀ x y, y ∈ x :: xs → m y ≤ m (maxByKey m x xs) := by
  induction xs with
  | nil =>
    intro x y hy
    simp only [List.mem_cons, List.not_mem_nil, or_false] at hy
    subst hy
    simp [maxByKey]
  | cons z zs ih =>
    intro x y hy
    simp only [maxByKey, List.foldl_cons]
    by_cases hc : m x < m z
    · rw [if_pos hc]
      have hmem : y ∈ z :: zs ∨ y = x := by
        simp only [List.mem_cons] at hy ⊢
        tauto
      rcases hmem with hm | hm
      · exact ih z y hm
      · subst hm
        calc m y ≤ m z := Nat.le_of_lt hc
          _ ≤ m (maxByKey m z zs) := ih z z (List.mem_cons_self z zs)
    · rw [if_neg hc]
      have hmem : y ∈ x :: zs ∨ y = z := by
        simp only [List.mem_cons] at hy ⊢
        tauto
      rcases hmem with hm | hm
      · exact ih x y hm
      · subst hm
        calc m y ≤ m x := Nat.le_of_not_lt hc
          _ ≤ m (maxByKey m x zs) := ih x x (List.mem_cons_self x zs)

theorem waitDlAux_sound (fs : Nat → List FsEntry) (existing : List String)
    (deadline : Nat) (fuel : Nat) :
    ∀ t st path u, waitDlAux fs existing deadline t st fuel = .ok (path, u) →
      u < deadline ∧
      (newFiles fs existing u).filter isPdfName ≠ [] ∧
      (newFiles fs existing u).filter is_temp_file = [] ∧
      path ∈ (newFiles fs existing u).filter isPdfName ∧
      (∀ q ∈ (newFiles fs existing u).filter isPdfName,
        mtimeAt fs u q ≤ mtimeAt fs u path) ∧
      sizeAt fs u path = sizeAt fs (u+12) path ∧
      0 < sizeAt fs (u+12) path := by
  induction fuel with
  | zero => intro t st path u h; simp [waitDlAux] at h
  | succ fuel ih =>
    intro t st path u h
    simp only [waitDlAux] at h
    by_cases hlt : t < deadline
    · rw [if_pos hlt] at h
      by_cases hst : (st || (newFiles fs existing t).any isDownloadName) = true
      · rw [if_pos hst] at h
        cases hpdfs : (newFiles fs existing t).filter isPdfName with
        | nil =>
          rw [hpdfs] at h
          exact ih (t+8) _ path u h
        | cons p ps =>
          rw [hpdfs] at h
          dsimp only at h
          by_cases htemps : ((newFiles fs existing t).filter is_temp_file).isEmpty = true
          · rw [if_pos htemps] at h
            by_cases hstab : sizeAt fs t (maxByKey (mtimeAt fs t) p ps) =
                sizeAt fs (t+12) (maxByKey (mtimeAt fs t) p ps) ∧
                0 < sizeAt fs (t+12) (maxByKey (mtimeAt fs t) p ps)
            · rw [if_pos hstab] at h
              have hpu : path = maxByKey (mtimeAt fs t) p ps ∧ u = t := by
                cases h
                exact ⟨rfl, rfl⟩
              obtain ⟨hp, hu⟩ := hpu
              subst hp
              subst hu
              refine ⟨hlt, by simp [hpdfs], List.isEmpty_iff.mp htemps, ?_, ?_,
                hstab.1, hstab.2⟩
              · rw [hpdfs]
                exact maxByKey_mem (mtimeAt fs u) ps p
              · intro q hq
                rw [hpdfs] at hq
                exact maxByKey_ge (mtimeAt fs u) ps p q hq
            · rw [if_neg hstab] at h
              exact ih (t+20) _ path u h
          · rw [if_neg htemps] at h
            exact ih (t+8) _ path u h
      · rw [if_neg hst] at h
        exact ih (t+8) _ path u h
    · rw [if_neg hlt] at h
      simp at h

theorem waitDlAux_timeout (fs : Nat → List FsEntry) (existing : List String)
    (deadline : Nat) (fuel : Nat) :
    ∀ t st r, deadline ≤ t + 8 * fuel → waitDlAux fs existing deadline t st fuel = .error r →
      deadline ≤ r := by
  induction fuel with
  | zero =>
    intro t st r hf h
    simp only [waitDlAux] at h
    cases h
    omega
  | succ fuel ih =>
    intro t st r hf h
    simp only [waitDlAux] at h
    by_cases hlt : t < deadline
    · rw [if_pos hlt] at h
      by_cases hst : (st || (newFiles fs existing t).any isDownloadName) = true
      · rw [if_pos hst] at h
        cases hpdfs : (newFiles fs existing t).filter isPdfName with
        | nil =>
          rw [hpdfs] at h
          exact ih (t+8) _ r (by omega) h
        | cons p ps =>
          rw [hpdfs] at h
          dsimp only at h
          by_cases htemps : ((newFiles fs existing t).filter is_temp_file).isEmpty = true
          · rw [if_pos htemps] at h
            by_cases hstab : sizeAt fs t (maxByKey (mtimeAt fs t) p ps) =
                sizeAt fs (t+12) (maxByKey (mtimeAt fs t) p ps) ∧
                0 < sizeAt fs (t+12) (maxByKey (mtimeAt fs t) p ps)
            · rw [if_pos hstab] at h
              cases h
            · rw [if_neg hstab] at h
              exact ih (t+20) _ r (by omega) h
          · rw [if_neg htemps] at h
            exact ih (t+8) _ r (by omega) h
      · rw [if_neg hst] at h
        exact ih (t+8) _ r (by omega) h
    · rw [if_neg hlt] at h
      cases h
      omega

/-- Claim C3: `wait_for_pdf_download` returns a path only at a poll where,
among entries new since the snapshot, at least one `.pdf` is present and no
partial/temp-named entry is, the returned path has the largest modification
time among the new `.pdf` entries, and its size is nonzero and unchanged
across the 1.2 s re-read; otherwise it raises a timeout error no earlier
than the deadline. -/
theorem wait_for_pdf_download_spec :
    (∀ (fs : Nat → List FsEntry) (existing : List String) (timeout : Nat) path u,
      wait_for_pdf_download fs existing timeout = .ok (path, u) →
      u < timeout ∧
      path ∈ (newFiles fs existing u).filter isPdfName ∧
      isPdfName path = true ∧
      (newFiles fs existing u).filter is_temp_file = [] ∧
      (∀ q ∈ (newFiles fs existing u).filter isPdfName,
        mtimeAt fs u q ≤ mtimeAt fs u path) ∧
      sizeAt fs u path = sizeAt fs (u+12) path ∧
      0 < sizeAt fs (u+12) path) ∧
    (∀ (fs : Nat → List FsEntry) (existing : List String) (timeout : Nat) r,
      wait_for_pdf_download fs existing timeout = .error r → timeout ≤ r) := by
  constructor
  · intro fs existing timeout path u h
    obtain ⟨h1, _, h3, h4, h5, h6, h7⟩ :=
      waitDlAux_sound fs existing timeout (timeout+1) 0 false path u h
    have hpdf : isPdfName path = true := (List.mem_filter.mp h4).2
    exact ⟨h1, h4, hpdf, h3, h5, h6, h7⟩
  · intro fs existing timeout r h
    exact waitDlAux_timeout fs existing timeout (timeout+1) 0 false r (by omega) h

theorem wait_for_pdf_download_spec_witness :
    8 < 100 ∧
    "r.pdf" ∈ (newFiles dlFs0 [] 8).filter isPdfName ∧
    isPdfName "r.pdf" = true ∧
    (newFiles dlFs0 [] 8).filter is_temp_file = [] ∧
    (∀ q ∈ (newFiles dlFs0 [] 8).filter isPdfName,
      mtimeAt dlFs0 8 q ≤ mtimeAt dlFs0 8 "r.pdf") ∧
    sizeAt dlFs0 8 "r.pdf" = sizeAt dlFs0 20 "r.pdf" ∧
    0 < sizeAt dlFs0 20 "r.pdf" :=
  wait_for_pdf_download_spec.1 dlFs0 [] 100 "r.pdf" 8 rfl

theorem runImmediate_fst_false (res : Nat → Bool) :
    ∀ n k, (runImmediate res k n).1 = false ↔
      ∀ j, k ≤ j → j < k + n → res j = false := by
  intro n
  induction n with
  | zero => intro k; simp [runImmediate]; omega
  | succ n ih =>
    intro k
    by_cases hk : res k = true
    · simp only [runImmediate, if_pos hk]
      constructor
      · intro h; cases h
      · intro h
        have := h k (Nat.le_refl k) (by omega)
        rw [hk] at this
        cases this
    · have hkf : res k = false := by
        cases hres : res k
        · rfl
        · exact absurd hres hk
      simp only [runImmediate, if_neg hk]
      rw [ih (k+1)]
      constructor
      · intro h j h1 h2
        rcases Nat.eq_or_lt_of_le h1 with he | hl
        · subst he; exact hkf
        · exact h j hl (by omega)
      · intro h j h1 h2
        exact h j (by omega) (by omega)

theorem runImmediate_shape (res : Nat → Bool) :
    ∀ n k e, e ∈ (runImmediate res k n).2 →
      (∃ j, e = Ev.immediateAttempt j) ∨ e = Ev.refresh := by
  intro n
  induction n with
  | zero => intro k e he; simp [runImmediate] at he
  | succ n ih =>
    intro k e he
    by_cases hk : res k = true
    · simp only [runImmediate, if_pos hk, List.mem_singleton] at he
      exact Or.inl ⟨k, he⟩
    · simp only [runImmediate, if_neg hk, List.mem_cons] at he
      rcases he with he | he | he
      · exact Or.inl ⟨k, he⟩
      · exact Or.inr he
      · exact ih (k+1) e he

theorem runImmediate_count_att (res : Nat → Bool) :
    ∀ n k, List.countP isAttEv (runImmediate res k n).2 ≤ n := by
  intro n
  induction n with
  | zero => intro k; simp [runImmediate]
  | succ n ih =>
    intro k
    by_cases hk : res k = true
    · simp [runImmediate, hk, List.countP_cons, isAttEv]
    · have h1 := ih (k+1)
      simp only [runImmediate, if_neg hk]
      simp [List.countP_cons, isAttEv]
      omega

theorem runImmediate_refresh_eq (res : Nat → Bool) :
    ∀ n k, List.countP isRefreshEv (runImmediate res k n).2 =
      List.countP (isFailedAttEv res) (runImmediate res k n).2 := by
  intro n
  induction n with
  | zero => intro k; simp [runImmediate]
  | succ n ih =>
    intro k
    by_cases hk : res k = true
    · simp [runImmediate, hk, List.countP_cons, isRefreshEv, isFailedAttEv]
    · have hkf : res k = false := by
        cases hres : res k
        · rfl
        · exact absurd hres hk
      have h1 := ih (k+1)
      simp only [runImmediate, if_neg hk]
      simp [List.countP_cons, isRefreshEv, isFailedAttEv, hkf]
      omega

theorem afterExport_snd (env : UiEnv) (runDir dataHoje : String) (rep : Report)
    (evs : List Ev) :
    ∃ tail, (afterExport env runDir dataHoje rep evs).2 = evs ++ tail ∧
      ∀ e ∈ tail, e = Ev.downloadWait ∨ e = Ev.applyRule := by
  unfold afterExport
  by_cases hd : env.downloadOk = false
  · rw [if_pos hd]
    exact ⟨[Ev.downloadWait], rfl, by simp⟩
  · rw [if_neg hd]
    by_cases hr : rep.hasPageRule = true
    · rw [if_pos hr]
      by_cases ho : env.ruleOk = true
      · rw [if_pos ho]
        exact ⟨[Ev.downloadWait, Ev.applyRule], rfl, by simp⟩
      · rw [if_neg ho]
        exact ⟨[Ev.downloadWait, Ev.applyRule], rfl, by simp⟩
    · rw [if_neg hr]
      exact ⟨[Ev.downloadWait], rfl, by simp⟩

theorem afterExport_fst (env : UiEnv) (runDir dataHoje : String) (rep : Report)
    (evs : List Ev) :
    ∃ o, (afterExport env runDir dataHoje rep evs).1 = .ok o := by
  unfold afterExport
  by_cases hd : env.downloadOk = false
  · rw [if_pos hd]; exact ⟨none, rfl⟩
  · rw [if_neg hd]
    by_cases hr : rep.hasPageRule = true
    · rw [if_pos hr]
      by_cases ho : env.ruleOk = true
      · rw [if_pos ho]; exact ⟨some (finalPath runDir dataHoje rep), rfl⟩
      · rw [if_neg ho]; exact ⟨none, rfl⟩
    · rw [if_neg hr]; exact ⟨some (finalPath runDir dataHoje rep), rfl⟩

theorem tailEv_counts (l : List Ev)
    (h : ∀ e ∈ l, e = Ev.downloadWait ∨ e = Ev.applyRule) :
    List.countP isAttEv l = 0 ∧ List.countP isRefreshEv l = 0 ∧
    (∀ res, List.countP (isFailedAttEv res) l = 0) ∧
    List.countP isFallbackEv l = 0 ∧ Ev.idleWait ∉ l := by
  refine ⟨?_, ?_, ?_, ?_, ?_⟩
  · apply List.countP_eq_zero.mpr
    intro a ha
    rcases h a ha with h1 | h1 <;> subst h1 <;> simp [isAttEv]
  · apply List.countP_eq_zero.mpr
    intro a ha
    rcases h a ha with h1 | h1 <;> subst h1 <;> simp [isRefreshEv]
  · intro res
    apply List.countP_eq_zero.mpr
    intro a ha
    rcases h a ha with h1 | h1 <;> subst h1 <;> simp [isFailedAttEv]
  · apply List.countP_eq_zero.mpr
    intro a ha
    rcases h a ha with h1 | h1 <;> subst h1 <;> simp [isFallbackEv]
  · intro hmem
    rcases h _ hmem with h1 | h1 <;> cases h1

theorem immEv_no_fallback (res : Nat → Bool) (n k : Nat) :
    List.countP isFallbackEv (runImmediate res k n).2 = 0 ∧
    Ev.idleWait ∉ (runImmediate res k n).2 := by
  constructor
  · apply List.countP_eq_zero.mpr
    intro e he
    rcases runImmediate_shape res n k e he with ⟨j, hj⟩ | hj <;> subst hj <;>
      simp [isFallbackEv]
  · intro hmem
    rcases runImmediate_shape res n k _ hmem with ⟨j, hj⟩ | hj <;> cases hj

theorem process_fst_ok (cfg : ExportConfig) (env : UiEnv) (runDir dataHoje : String)
    (rep : Report) (hval : rep.activeRules ≤ 1) :
    ∃ o, (process_single_report cfg env runDir dataHoje rep).1 = .ok o := by
  have hv : rep.validate = .ok () := by
    unfold Report.validate
    rw [if_neg (by omega)]
  unfold process_single_report
  rw [hv]
  dsimp only
  by_cases hl : env.pageLoadOk = false
  · rw [if_pos hl]
    exact ⟨none, rfl⟩
  · rw [if_neg hl]
    by_cases him : (if cfg.force_immediate then
        runImmediate env.immediateResult 1 cfg.immediate_tries else (false, [])).1 = true
    · rw [if_pos him]
      exact afterExport_fst env runDir dataHoje rep _
    · rw [if_neg him]
      by_cases hidle : env.idleOk = false
      · rw [if_pos hidle]
        exact ⟨none, rfl⟩
      · rw [if_neg hidle]
        by_cases hfb : env.fallbackExportOk = false
        · rw [if_pos hfb]
          exact ⟨none, rfl⟩
        · rw [if_neg hfb]
          exact afterExport_fst env runDir dataHoje rep _

theorem runAllAux_eq_ok (cfg : ExportConfig) (envs : Nat → UiEnv)
    (runDir dataHoje : String) :
    ∀ (reps : List Report) (i : Nat) (oks fails : List String),
      runAllAux cfg envs runDir dataHoje i reps = .ok (oks, fails) →
      oks = (List.enumFrom i reps).filterMap
        (fun p => reportOutcome cfg envs runDir dataHoje p.1 p.2) ∧
      fails = (List.enumFrom i reps).filterMap
        (fun p => if (reportOutcome cfg envs runDir dataHoje p.1 p.2).isNone
          then some p.2.name else none) := by
  intro reps
  induction reps with
  | nil =>
    intro i oks fails h
    simp only [runAllAux] at h
    cases h
    simp
  | cons r rs ih =>
    intro i oks fails h
    simp only [runAllAux] at h
    cases hp : (process_single_report cfg (envs i) runDir dataHoje r).1 with
    | error e =>
      rw [hp] at h
      cases h
    | ok res =>
      rw [hp] at h
      dsimp only at h
      have hout : reportOutcome cfg envs runDir dataHoje i r = res := by
        unfold reportOutcome
        rw [hp]
      cases hrest : runAllAux cfg envs runDir dataHoje (i+1) rs with
      | error e =>
        rw [hrest] at h
        cases h
      | ok pr =>
        obtain ⟨oks', fails'⟩ := pr
        rw [hrest] at h
        dsimp only at h
        obtain ⟨ho, hf⟩ := ih (i+1) oks' fails' hrest
        have henum : List.enumFrom i (r :: rs) = (i, r) :: List.enumFrom (i+1) rs := rfl
        cases res with
        | some p =>
          cases h
          constructor
          · rw [henum, List.filterMap_cons]
            dsimp only
            rw [hout, ho]
          · rw [henum, List.filterMap_cons]
            dsimp only
            rw [hout]
            simp only [Option.isNone_some, if_false, Bool.false_eq_true]
            exact hf
        | none =>
          cases h
          constructor
          · rw [henum, List.filterMap_cons]
            dsimp only
            rw [hout, ho]
          · rw [henum, List.filterMap_cons]
            dsimp only
            rw [hout]
            simp only [Option.isNone_none, if_true]
            rw [hf]

theorem runAllAux_valid_ok (cfg : ExportConfig) (envs : Nat → UiEnv)
    (runDir dataHoje : String) :
    ∀ (reps : List Report), (∀ r ∈ reps, r.activeRules ≤ 1) →
      ∀ i, ∃ oks fails, runAllAux cfg envs runDir dataHoje i reps = .ok (oks, fails) := by
  intro reps
  induction reps with
  | nil => intro _ i; exact ⟨[], [], rfl⟩
  | cons r rs ih =>
    intro hval i
    obtain ⟨o, ho⟩ :=
      process_fst_ok cfg (envs i) runDir dataHoje r (hval r (List.mem_cons_self r rs))
    obtain ⟨oks, fails, hrest⟩ := ih (fun x hx => hval x (List.mem_cons_of_mem r hx)) (i+1)
    cases o with
    | some p =>
      refine ⟨p :: oks, fails, ?_⟩
      simp only [runAllAux, ho, hrest]
    | none =>
      refine ⟨oks, r.name :: fails, ?_⟩
      simp only [runAllAux, ho, hrest]

/-- Claim C1 counterexample: a batch containing one report with two active
page rules makes `run_all_reports` propagate the configuration error
instead of returning a result with that report recorded among the failed
names — the batch aborts. -/
theorem run_all_reports_aborts_on_ambiguous_spec :
    run_all_reports defaultConfig (fun _ => envAllOk) "d" "t" [badRep] =
      .error (ambiguousMsg "X") := rfl

/-- Claim C1 (amended): every error raised inside report processing after
spec validation is caught at the report boundary, the report name joins the
failed-names sequence and the batch continues; the ambiguous-page-rule
configuration error, raised by `validate` before the `try` block, is not
caught and aborts the whole batch. -/
theorem run_all_reports_catches_after_validation (cfg : ExportConfig)
    (envs : Nat → UiEnv) (runDir dataHoje : String) (reps : List Report)
    (hval : ∀ r ∈ reps, r.activeRules ≤ 1) :
    ∃ oks fails, run_all_reports cfg envs runDir dataHoje reps = .ok (oks, fails) ∧
      oks = (List.enumFrom 0 reps).filterMap
        (fun p => reportOutcome cfg envs runDir dataHoje p.1 p.2) ∧
      fails = (List.enumFrom 0 reps).filterMap
        (fun p => if (reportOutcome cfg envs runDir dataHoje p.1 p.2).isNone
          then some p.2.name else none) ∧
      ∀ p ∈ List.enumFrom 0 reps,
        reportOutcome cfg envs runDir dataHoje p.1 p.2 = none → p.2.name ∈ fails := by
  obtain ⟨oks, fails, h⟩ := runAllAux_valid_ok cfg envs runDir dataHoje reps hval 0
  obtain ⟨ho, hf⟩ := runAllAux_eq_ok cfg envs runDir dataHoje reps 0 oks fails h
  refine ⟨oks, fails, h, ho, hf, ?_⟩
  intro p hp hnone
  rw [hf, List.mem_filterMap]
  refine ⟨p, hp, ?_⟩
  rw [hnone]
  rfl

theorem run_all_reports_catches_after_validation_witness :
    ∃ oks fails,
      run_all_reports defaultConfig (fun _ => envAllFail) "d" "t" [goodRep] =
        .ok (oks, fails) ∧
      oks = (List.enumFrom 0 [goodRep]).filterMap
        (fun p => reportOutcome defaultConfig (fun _ => envAllFail) "d" "t" p.1 p.2) ∧
      fails = (List.enumFrom 0 [goodRep]).filterMap
        (fun p => if (reportOutcome defaultConfig (fun _ => envAllFail) "d" "t"
            p.1 p.2).isNone then some p.2.name else none) ∧
      ∀ p ∈ List.enumFrom 0 [goodRep],
        reportOutcome defaultConfig (fun _ => envAllFail) "d" "t" p.1 p.2 = none →
        p.2.name ∈ fails :=
  run_all_reports_catches_after_validation defaultConfig (fun _ => envAllFail)
    "d" "t" [goodRep] (by intro r hr; simp at hr; subst hr; decide)

theorem filterMap_partition_length {α β : Type} (f : α → Option β)
    (g : α → String) :
    ∀ l : List α, (l.filterMap f).length +
      (l.filterMap (fun a => if (f a).isNone then some (g a) else none)).length =
      l.length := by
  intro l
  induction l with
  | nil => simp
  | cons a t ih =>
    cases hf : f a with
    | some b =>
      simp only [List.filterMap_cons, hf, Option.isNone_some, Bool.false_eq_true,
        if_false, List.length_cons]
      omega
    | none =>
      simp only [List.filterMap_cons, hf, Option.isNone_none, if_true,
        List.length_cons]
      omega

theorem merge_pdfs_foldl_join (readPdf : String → List Nat) :
    ∀ (paths : List String) (init : List Nat),
      paths.foldl (fun acc p => acc ++ readPdf p) init =
        init ++ (paths.map readPdf).flatten := by
  intro paths
  induction paths with
  | nil => intro init; simp
  | cons p ps ih =>
    intro init
    simp only [List.foldl_cons, List.map_cons, List.flatten_cons]
    rw [ih, List.append_assoc]

/-- Claim C8: whenever `run_all_reports` returns a pair of sequences, every
input report contributes exactly one entry — its final artifact path to the
success list or its name to the failure list — both in input order, and
`merge_pdfs` concatenates the successful artifacts in exactly the order of
its input list. -/
theorem batch_result_partitions_and_merge_order :
    (∀ (cfg : ExportConfig) (envs : Nat → UiEnv) (runDir dataHoje : String)
        (reps : List Report) (oks fails : List String),
      run_all_reports cfg envs runDir dataHoje reps = .ok (oks, fails) →
      oks = (List.enumFrom 0 reps).filterMap
        (fun p => reportOutcome cfg envs runDir dataHoje p.1 p.2) ∧
      fails = (List.enumFrom 0 reps).filterMap
        (fun p => if (reportOutcome cfg envs runDir dataHoje p.1 p.2).isNone
          then some p.2.name else none) ∧
      oks.length + fails.length = reps.length) ∧
    (∀ (readPdf : String → List Nat) (paths : List String),
      merge_pdfs readPdf paths = (paths.map readPdf).flatten) := by
  constructor
  · intro cfg envs runDir dataHoje reps oks fails h
    obtain ⟨ho, hf⟩ := runAllAux_eq_ok cfg envs runDir dataHoje reps 0 oks fails h
    refine ⟨ho, hf, ?_⟩
    rw [ho, hf]
    have := filterMap_partition_length
      (fun p : Nat × Report => reportOutcome cfg envs runDir dataHoje p.1 p.2)
      (fun p : Nat × Report => p.2.name) (List.enumFrom 0 reps)
    rw [this]
    exact List.enumFrom_length
  · intro readPdf paths
    unfold merge_pdfs
    rw [merge_pdfs_foldl_join readPdf paths []]
    simp

theorem batch_result_partitions_and_merge_order_witness :
    ([destinoPath "d" "t" goodRep] = (List.enumFrom 0 [goodRep]).filterMap
      (fun p => reportOutcome defaultConfig (fun _ => envAllOk) "d" "t" p.1 p.2) ∧
     ([] : List String) = (List.enumFrom 0 [goodRep]).filterMap
      (fun p => if (reportOutcome defaultConfig (fun _ => envAllOk) "d" "t"
          p.1 p.2).isNone then some p.2.name else none) ∧
     [destinoPath "d" "t" goodRep].length + ([] : List String).length =
       [goodRep].length) ∧
    merge_pdfs (fun _ => [1, 2]) ["a", "b"] = [1, 2, 1, 2] :=
  ⟨batch_result_partitions_and_merge_order.1 defaultConfig (fun _ => envAllOk)
      "d" "t" [goodRep] [destinoPath "d" "t" goodRep] [] rfl,
   batch_result_partitions_and_merge_order.2 (fun _ => [1, 2]) ["a", "b"]⟩

/-- Claim C2: with immediate mode enabled at most `immediate_tries`
immediate attempts happen, each failed attempt followed by a surface
reload; the idle-gated fallback (readiness wait plus at most one more
navigation+confirm attempt) runs iff immediate mode is disabled or every
immediate attempt failed; a fallback failure yields a failed report
(`.ok none`) and the batch records the name and continues. -/
theorem immediate_retry_and_single_fallback (cfg : ExportConfig) (env : UiEnv)
    (runDir dataHoje : String) (rep : Report)
    (hval : rep.activeRules ≤ 1) (hload : env.pageLoadOk = true) :
    List.countP isAttEv (process_single_report cfg env runDir dataHoje rep).2 ≤
      cfg.immediate_tries ∧
    List.countP isRefreshEv (process_single_report cfg env runDir dataHoje rep).2 =
      List.countP (isFailedAttEv env.immediateResult)
        (process_single_report cfg env runDir dataHoje rep).2 ∧
    (Ev.idleWait ∈ (process_single_report cfg env runDir dataHoje rep).2 ↔
      (cfg.force_immediate = false ∨
        ∀ k, 1 ≤ k → k < 1 + cfg.immediate_tries → env.immediateResult k = false)) ∧
    List.countP isFallbackEv (process_single_report cfg env runDir dataHoje rep).2 ≤ 1 ∧
    (Ev.idleWait ∈ (process_single_report cfg env runDir dataHoje rep).2 →
      env.idleOk = false ∨ env.fallbackExportOk = false →
      (process_single_report cfg env runDir dataHoje rep).1 = .ok none) ∧
    ((process_single_report cfg env runDir dataHoje rep).1 = .ok none →
      ∀ (envs : Nat → UiEnv) (i : Nat) (rest : List Report) (oks fails : List String),
        envs i = env →
        runAllAux cfg envs runDir dataHoje (i+1) rest = .ok (oks, fails) →
        runAllAux cfg envs runDir dataHoje i (rep :: rest) =
          .ok (oks, rep.name :: fails)) := by
  have hv : rep.validate = .ok () := by
    unfold Report.validate
    rw [if_neg (by omega)]
  have hcont : (process_single_report cfg env runDir dataHoje rep).1 = .ok none →
      ∀ (envs : Nat → UiEnv) (i : Nat) (rest : List Report) (oks fails : List String),
        envs i = env →
        runAllAux cfg envs runDir dataHoje (i+1) rest = .ok (oks, fails) →
        runAllAux cfg envs runDir dataHoje i (rep :: rest) =
          .ok (oks, rep.name :: fails) := by
    intro h envs i rest oks fails henv hrest
    simp only [runAllAux, henv, h, hrest]
  have hnl : ¬ env.pageLoadOk = false := by rw [hload]; simp
  have hmain : List.countP isAttEv (process_single_report cfg env runDir dataHoje rep).2 ≤
      cfg.immediate_tries ∧
      List.countP isRefreshEv (process_single_report cfg env runDir dataHoje rep).2 =
        List.countP (isFailedAttEv env.immediateResult)
          (process_single_report cfg env runDir dataHoje rep).2 ∧
      (Ev.idleWait ∈ (process_single_report cfg env runDir dataHoje rep).2 ↔
        (cfg.force_immediate = false ∨
          ∀ k, 1 ≤ k → k < 1 + cfg.immediate_tries → env.immediateResult k = false)) ∧
      List.countP isFallbackEv
        (process_single_report cfg env runDir dataHoje rep).2 ≤ 1 ∧
      (Ev.idleWait ∈ (process_single_report cfg env runDir dataHoje rep).2 →
        env.idleOk = false ∨ env.fallbackExportOk = false →
        (process_single_report cfg env runDir dataHoje rep).1 = .ok none) := by
    unfold process_single_report
    rw [hv]
    dsimp only
    rw [if_neg hnl]
    cases hforce : cfg.force_immediate with
    | false =>
      simp only [Bool.false_eq_true, if_false]
      by_cases hidle : env.idleOk = false
      · rw [if_pos hidle]
        refine ⟨by simp [List.countP_cons, isAttEv],
          by simp [List.countP_cons, isRefreshEv, isFailedAttEv],
          by simp, by simp [List.countP_cons, isFallbackEv],
          fun _ _ => rfl⟩
      · rw [if_neg hidle]
        by_cases hfb : env.fallbackExportOk = false
        · rw [if_pos hfb]
          refine ⟨by simp [List.countP_cons, isAttEv],
            by simp [List.countP_cons, isRefreshEv, isFailedAttEv],
            by simp, by simp [List.countP_cons, isFallbackEv],
            fun _ _ => rfl⟩
        · rw [if_neg hfb]
          obtain ⟨tail, htail, htailev⟩ := afterExport_snd env runDir dataHoje rep
            (Ev.loadUrl rep.url :: [] ++ [Ev.idleWait, Ev.fallbackAttempt])
          obtain ⟨ht1, ht2, ht3, ht4, ht5⟩ := tailEv_counts tail htailev
          rw [htail]
          refine ⟨?_, ?_, ?_, ?_, ?_⟩
          · simp [List.countP_append, List.countP_cons, isAttEv, ht1]
          · simp [List.countP_append, List.countP_cons, isRefreshEv, isFailedAttEv,
              ht2, ht3 env.immediateResult]
          · simp
          · simp [List.countP_append, List.countP_cons, isFallbackEv, ht4]
          · intro _ hbad
            rcases hbad with hb | hb
            · exact absurd hb hidle
            · exact absurd hb hfb
    | true =>
      simp only [if_true]
      cases him : (runImmediate env.immediateResult 1 cfg.immediate_tries).1 with
      | true =>
        rw [if_pos rfl]
        obtain ⟨tail, htail, htailev⟩ := afterExport_snd env runDir dataHoje rep
          (Ev.loadUrl rep.url :: (runImmediate env.immediateResult 1 cfg.immediate_tries).2)
        obtain ⟨ht1, ht2, ht3, ht4, ht5⟩ := tailEv_counts tail htailev
        obtain ⟨hif, hii⟩ :=
          immEv_no_fallback env.immediateResult cfg.immediate_tries 1
        have hni : Ev.idleWait ∉
            Ev.loadUrl rep.url ::
              (runImmediate env.immediateResult 1 cfg.immediate_tries).2 ++ tail := by
          intro hmem
          rcases List.mem_cons.mp hmem with hm1 | hm1
          · cases hm1
          · rcases List.mem_append.mp hm1 with hm | hm
            · exact hii hm
            · exact ht5 hm
        rw [htail]
        refine ⟨?_, ?_, ?_, ?_, ?_⟩
        · have h1 := runImmediate_count_att env.immediateResult cfg.immediate_tries 1
          simp [List.countP_append, List.countP_cons, isAttEv, ht1]
          omega
        · have h1 := runImmediate_refresh_eq env.immediateResult cfg.immediate_tries 1
          simp [List.countP_append, List.countP_cons, isRefreshEv, isFailedAttEv,
            ht2, ht3 env.immediateResult]
          omega
        · refine iff_of_false hni ?_
          rintro (hb | hb)
          · cases hb
          · have h2 := (runImmediate_fst_false env.immediateResult
              cfg.immediate_tries 1).mpr hb
            rw [him] at h2
            cases h2
        · simp [List.countP_append, List.countP_cons, isFallbackEv, hif, ht4]
        · intro hmem
          exact absurd hmem hni
      | false =>
        rw [if_neg (by simp)]
        have hall : ∀ k, 1 ≤ k → k < 1 + cfg.immediate_tries →
            env.immediateResult k = false :=
          (runImmediate_fst_false env.immediateResult cfg.immediate_tries 1).mp him
        obtain ⟨hif, hii⟩ :=
          immEv_no_fallback env.immediateResult cfg.immediate_tries 1
        by_cases hidle : env.idleOk = false
        · rw [if_pos hidle]
          refine ⟨?_, ?_, ?_, ?_, fun _ _ => rfl⟩
          · have h1 := runImmediate_count_att env.immediateResult cfg.immediate_tries 1
            simp [List.countP_append, List.countP_cons, isAttEv]
            omega
          · have h1 := runImmediate_refresh_eq env.immediateResult cfg.immediate_tries 1
            simp [List.countP_append, List.countP_cons, isRefreshEv, isFailedAttEv]
            omega
          · exact iff_of_true (by simp) (Or.inr hall)
          · simp [List.countP_append, List.countP_cons, isFallbackEv, hif]
        · rw [if_neg hidle]
          by_cases hfb : env.fallbackExportOk = false
          · rw [if_pos hfb]
            refine ⟨?_, ?_, ?_, ?_, fun _ _ => rfl⟩
            · have h1 := runImmediate_count_att env.immediateResult
                cfg.immediate_tries 1
              simp [List.countP_append, List.countP_cons, isAttEv]
              omega
            · have h1 := runImmediate_refresh_eq env.immediateResult
                cfg.immediate_tries 1
              simp [List.countP_append, List.countP_cons, isRefreshEv, isFailedAttEv]
              omega
            · exact iff_of_true (by simp) (Or.inr hall)
            · simp [List.countP_append, List.countP_cons, isFallbackEv, hif]
          · rw [if_neg hfb]
            obtain ⟨tail, htail, htailev⟩ := afterExport_snd env runDir dataHoje rep
              (Ev.loadUrl rep.url ::
                (runImmediate env.immediateResult 1 cfg.immediate_tries).2 ++
                [Ev.idleWait, Ev.fallbackAttempt])
            obtain ⟨ht1, ht2, ht3, ht4, ht5⟩ := tailEv_counts tail htailev
            rw [htail]
            refine ⟨?_, ?_, ?_, ?_, ?_⟩
            · have h1 := runImmediate_count_att env.immediateResult
                cfg.immediate_tries 1
              simp [List.countP_append, List.countP_cons, isAttEv, ht1]
              omega
            · have h1 := runImmediate_refresh_eq env.immediateResult
                cfg.immediate_tries 1
              simp [List.countP_append, List.countP_cons, isRefreshEv, isFailedAttEv,
                ht2, ht3 env.immediateResult]
              omega
            · exact iff_of_true (by simp) (Or.inr hall)
            · simp [List.countP_append, List.countP_cons, isFallbackEv, hif, ht4]
            · intro _ hbad
              rcases hbad with hb | hb
              · exact absurd hb hidle
              · exact absurd hb hfb
  exact ⟨hmain.1, hmain.2.1, hmain.2.2.1, hmain.2.2.2.1, hmain.2.2.2.2, hcont⟩

theorem substrIn_self (n : List Char) : substrIn n n := ⟨[], [], by simp⟩

theorem substrIn_appendL (n l : List Char) (h : substrIn n l) (r : List Char) :
    substrIn n (l ++ r) := by
  obtain ⟨p, q, hpq⟩ := h
  exact ⟨p, q ++ r, by rw [hpq]; simp [List.append_assoc]⟩

theorem substrIn_appendR (n r : List Char) (h : substrIn n r) (l : List Char) :
    substrIn n (l ++ r) := by
  obtain ⟨p, q, hpq⟩ := h
  exact ⟨l ++ p, q, by rw [hpq]; simp [List.append_assoc]⟩

theorem substrIn_trans (a b c : List Char) (h1 : substrIn a b) (h2 : substrIn b c) :
    substrIn a c := by
  obtain ⟨p, q, hpq⟩ := h1
  obtain ⟨r, s, hrs⟩ := h2
  refine ⟨r ++ p, q ++ s, ?_⟩
  rw [hrs, hpq]
  simp [List.append_assoc]

theorem substrIn_flatten (x : List Char) (L : List (List Char)) (h : x ∈ L) :
    substrIn x L.flatten := by
  induction L with
  | nil => cases h
  | cons a t ih =>
    rw [List.flatten_cons]
    rcases List.mem_cons.mp h with h1 | h1
    · subst h1
      exact substrIn_appendL x x (substrIn_self x) t.flatten
    · exact substrIn_appendR x t.flatten (ih h1) a

theorem foldl_strAppend_data (l : List String) :
    ∀ s : String, (l.foldl (· ++ ·) s).data = s.data ++ (l.map String.data).flatten := by
  induction l with
  | nil => intro s; simp
  | cons a t ih =>
    intro s
    simp only [List.foldl_cons, List.map_cons, List.flatten_cons]
    rw [ih (s ++ a), String.data_append, List.append_assoc]

theorem join_data (l : List String) :
    (String.join l).data = (l.map String.data).flatten := by
  have h : String.join l = l.foldl (· ++ ·) "" := by simp [String.join]
  rw [h, foldl_strAppend_data]
  rfl

set_option maxRecDepth 8192 in
/-- Claim C9: a batch with zero successful paths makes `main` skip both the
merge and the send; with at least one success and a nonempty recipient
list, merge and send both happen and the notification body carries the
`Falhas` section holding one list item per failed report name. -/
theorem main_zero_success_skips_and_failures_annotated :
    (∀ (dataHoje pdfFinal : String) (reports : List Report)
        (falhas recipients : List String),
      main_after_batch dataHoje pdfFinal reports [] falhas recipients = []) ∧
    (∀ (dataHoje pdfFinal : String) (reports : List Report)
        (okPaths falhas recipients : List String),
      okPaths ≠ [] → recipients ≠ [] →
      ∃ body,
        main_after_batch dataHoje pdfFinal reports okPaths falhas recipients =
          [MainEv.mergeEv okPaths pdfFinal,
           MainEv.sendEv recipients
             ("Indicadores diários (" ++ dataHoje ++ ")") body] ∧
        (falhas ≠ [] → substrIn ("<p><b>Falhas:</b></p><ul>").data body.data) ∧
        ∀ n ∈ falhas, substrIn ("<li>" ++ n ++ "</li>").data body.data ∧
          substrIn n.data body.data) := by
  constructor
  · intro dataHoje pdfFinal reports falhas recipients
    rfl
  · intro dataHoje pdfFinal reports okPaths falhas recipients hok hrec
    have h1 : okPaths.isEmpty = false := by
      cases okPaths with
      | nil => exact absurd rfl hok
      | cons a t => rfl
    have h2 : recipients.isEmpty = false := by
      cases recipients with
      | nil => exact absurd rfl hrec
      | cons a t => rfl
    have hkey : ∀ okrep : List Report, falhas.isEmpty = false →
        substrIn ("<p><b>Falhas:</b></p><ul>").data
          (build_email_html dataHoje okrep falhas).data ∧
        ∀ n ∈ falhas,
          substrIn ("<li>" ++ n ++ "</li>").data
            (build_email_html dataHoje okrep falhas).data ∧
          substrIn n.data (build_email_html dataHoje okrep falhas).data := by
      intro okrep hne
      have hbody : (build_email_html dataHoje okrep falhas).data =
          ((("\n    <p>Bom dia,</p>\n    <p>Segue o PDF diário consolidado (data ").data ++
            dataHoje.data ++
            (") em anexo.</p>\n    <p>Relatórios processados:</p>\n    <ul>").data ++
            (String.join (okrep.map (fun r =>
              "<li>" ++ r.name ++ " — <a href=\"" ++ r.url ++ "\">abrir</a></li>"))).data ++
            ("</ul>\n    ").data ++ ("<p><b>Falhas:</b></p><ul>").data) ++
           (String.join (falhas.map (fun n => "<li>" ++ n ++ "</li>"))).data) ++
          (("</ul>").data ++
           ("\n    <p>Atenciosamente,<br>Sua Equipe</p>\n    ").data) := by
        simp [build_email_html, hne, String.data_append, List.append_assoc]
      constructor
      · rw [hbody]
        apply substrIn_appendL
        apply substrIn_appendL
        apply substrIn_appendR
        exact substrIn_self _
      · intro n hn
        have hmem2 : ("<li>" ++ n ++ "</li>").data ∈
            (falhas.map (fun m => "<li>" ++ m ++ "</li>")).map String.data :=
          List.mem_map_of_mem String.data
            (List.mem_map_of_mem (fun m => "<li>" ++ m ++ "</li>") hn)
        have hnj1 : substrIn ("<li>" ++ n ++ "</li>").data
            (String.join (falhas.map (fun m => "<li>" ++ m ++ "</li>"))).data := by
          rw [join_data]
          exact substrIn_flatten _ _ hmem2
        have hn_in_li : substrIn n.data ("<li>" ++ n ++ "</li>").data :=
          ⟨("<li>").data, ("</li>").data, by simp [String.data_append]⟩
        have hnj2 : substrIn n.data
            (String.join (falhas.map (fun m => "<li>" ++ m ++ "</li>"))).data :=
          substrIn_trans _ _ _ hn_in_li hnj1
        constructor
        · rw [hbody]
          apply substrIn_appendL
          exact substrIn_appendR _ _ hnj1 _
        · rw [hbody]
          apply substrIn_appendL
          exact substrIn_appendR _ _ hnj2 _
    refine ⟨build_email_html dataHoje
      (reports.filter (fun r =>
        okPaths.any (fun p => strStartsWith (basename p) (r.name ++ "_")))) falhas,
      ?_, ?_, ?_⟩
    · simp [main_after_batch, h1, h2]
    · intro hfne
      have hne : falhas.isEmpty = false := by
        cases falhas with
        | nil => exact absurd rfl hfne
        | cons a t => rfl
      exact (hkey _ hne).1
    · intro n hn
      have hne : falhas.isEmpty = false := by
        cases falhas with
        | nil => cases hn
        | cons a t => rfl
      exact (hkey _ hne).2 n hn

theorem immediate_retry_and_single_fallback_witness :
    List.countP isAttEv
      (process_single_report defaultConfig envAllFail "d" "t" goodRep).2 ≤
      defaultConfig.immediate_tries ∧
    List.countP isRefreshEv
      (process_single_report defaultConfig envAllFail "d" "t" goodRep).2 =
      List.countP (isFailedAttEv envAllFail.immediateResult)
        (process_single_report defaultConfig envAllFail "d" "t" goodRep).2 ∧
    (Ev.idleWait ∈ (process_single_report defaultConfig envAllFail "d" "t" goodRep).2 ↔
      (defaultConfig.force_immediate = false ∨
        ∀ k, 1 ≤ k → k < 1 + defaultConfig.immediate_tries →
          envAllFail.immediateResult k = false)) ∧
    List.countP isFallbackEv
      (process_single_report defaultConfig envAllFail "d" "t" goodRep).2 ≤ 1 ∧
    (Ev.idleWait ∈ (process_single_report defaultConfig envAllFail "d" "t" goodRep).2 →
      envAllFail.idleOk = false ∨ envAllFail.fallbackExportOk = false →
      (process_single_report defaultConfig envAllFail "d" "t" goodRep).1 = .ok none) ∧
    ((process_single_report defaultConfig envAllFail "d" "t" goodRep).1 = .ok none →
      ∀ (envs : Nat → UiEnv) (i : Nat) (rest : List Report) (oks fails : List String),
        envs i = envAllFail →
        runAllAux defaultConfig envs "d" "t" (i+1) rest = .ok (oks, fails) →
        runAllAux defaultConfig envs "d" "t" i (goodRep :: rest) =
          .ok (oks, goodRep.name :: fails)) :=
  immediate_retry_and_single_fallback defaultConfig envAllFail "d" "t" goodRep
    (by decide) rfl

theorem main_zero_success_skips_and_failures_annotated_witness :
    ∃ body,
      main_after_batch "t" "f" [goodRep] ["d/A_t.pdf"] ["B"] ["x"] =
        [MainEv.mergeEv ["d/A_t.pdf"] "f",
         MainEv.sendEv ["x"] ("Indicadores diários (" ++ "t" ++ ")") body] ∧
      (["B"] ≠ [] → substrIn ("<p><b>Falhas:</b></p><ul>").data body.data) ∧
      ∀ n ∈ ["B"], substrIn ("<li>" ++ n ++ "</li>").data body.data ∧
        substrIn n.data body.data :=
  main_zero_success_skips_and_failures_annotated.2 "t" "f" [goodRep]
    ["d/A_t.pdf"] ["B"] ["x"] (by simp) (by simp)
